import Mathlib

/-!
Verification of the text-normaliser pipeline (`text_normaliser.py`).

The Python source is shallowly embedded here.  Strings are modelled by Lean
`String` (a wrapper around `List Char`), Python's arbitrary-precision
non-negative integers by `Nat`, and fallible Python code (code that can raise
`IndexError` / `ValueError`) by `Option`-returning functions, `none` meaning
that the Python original raises.

Modelling notes, applying throughout:
* `int(num/key)` in the source divides floats before truncating; on every
  magnitude relevant here (all arguments below 2^53) the truncated float
  quotient coincides with integer floor division, so it is modelled by `Nat`
  division `num / key`.
* Python's `int(s)` (`pyInt`) strips leading/trailing whitespace (the exact
  25-codepoint set CPython's parser strips) and then requires a non-empty run
  of Unicode decimal digits (category Nd, 66 runs of ten codepoints each,
  value = codepoint minus run start); anything else raises `ValueError`
  (`none`).  Two `int` features are deliberately not modelled because no
  string reaching `int` in these theorems can exercise them: a leading
  `+`/`-` sign (every parsed field either begins with a digit, so a sign
  cannot occur, or contains no digit at all, so `int` fails either way), and
  `_` digit-group separators (valid only between two digits; in every field
  here no digit ever follows a non-digit).
* `re.match` anchors at the start of the string only (prefix match), while
  `re.fullmatch` must consume the whole string; the match functions below are
  equivalent decision procedures for the concrete patterns in the source.
-/

/-- The fixed punctuation set of the source
(`'''!()-[]{};:'"\,<>./?@#$%^&*_~'''`, a raw Python literal, so the backslash
is a literal character). -/
def punctuation : String := "!()-[]\x7b\x7d;:\x27\"\\,<>./?@#$%^&*_~"

/-- Python slice `s[:-n]` (for `n` at most the length this is the string
without its last `n` characters; always total). -/
def pyDropRight (s : String) (n : Nat) : String :=
  ⟨s.data.take (s.data.length - n)⟩

/-- Python `s.endswith(suf)` for a single suffix. -/
def pyEndsWith (s suf : String) : Bool :=
  suf.data.length ≤ s.data.length &&
    suf.data == s.data.drop (s.data.length - suf.data.length)

/-- `startsWithL pat l`: `pat` is a prefix of `l`. -/
def startsWithL : List Char → List Char → Bool
  | [], _ => true
  | _ :: _, [] => false
  | p :: ps, c :: cs => p == c && startsWithL ps cs

/-- Python's `pat in l` for strings: `pat` occurs contiguously inside `l`.
(The source uses this operator to test `string in punctuation`, which is a
substring test, not a character-membership test.) -/
def isSubstrOf (pat : List Char) : List Char → Bool
  | [] => startsWithL pat []
  | c :: rest => startsWithL pat (c :: rest) || isSubstrOf pat rest

/-- Python `str.split(sep)` on characters: split at every occurrence of `sep`;
the result is never empty and keeps empty fields. -/
def pySplit (sep : Char) : List Char → List (List Char)
  | [] => [[]]
  | c :: rest =>
    if c == sep then [] :: pySplit sep rest
    else
      match pySplit sep rest with
      | [] => [[c]]
      | h :: t => (c :: h) :: t

/-- The scanning loop of `trailing_punctuation`: the source walks the
*reversed* string, accumulating (`endstring += ...`) every punctuation
character until a non-punctuation character breaks the loop.  If the walk
runs past the end of the string, Python raises `IndexError` (modelled by
`none`).  The accumulated list is in the order Python builds it, i.e. the
reverse of the order the characters have in the original string. -/
def scanLoop : List Char → Option (List Char)
  | [] => none
  | c :: rest =>
    if punctuation.data.contains c then (scanLoop rest).map (fun e => c :: e)
    else some []

/-- `trailing_punctuation` from the source: if the whole token occurs inside
the punctuation literal (Python's substring `in`), return it atomically;
otherwise peel trailing punctuation via the reversed scan and slice
(`string[:-len(endstring)]`). -/
def trailing_punctuation (s : String) : Option (String × String) :=
  if isSubstrOf s.data punctuation.data then some (s, "")
  else
    match scanLoop s.data.reverse with
    | none => none
    | some e =>
      if 0 < e.length then
        some (⟨s.data.take (s.data.length - e.length)⟩, ⟨e⟩)
      else some (s, "")

/-- The first codepoints of the 66 runs of ten consecutive Unicode decimal
digits (category Nd, Unicode 14.0, as accepted by CPython's `int()`): each
run covers `start .. start + 9` with digit values `0 .. 9` in order.  The
first run (48) is ASCII `0`-`9`. -/
def pyDigitStarts : List Nat :=
  [48, 1632, 1776, 1984, 2406, 2534, 2662, 2790, 2918, 3046, 3174, 3302,
   3430, 3558, 3664, 3792, 3872, 4160, 4240, 6112, 6160, 6470, 6608, 6784,
   6800, 6992, 7088, 7232, 7248, 42528, 43216, 43264, 43472, 43504, 43600,
   44016, 65296, 66720, 68912, 69734, 69872, 69942, 70096, 70384, 70736,
   70864, 71248, 71360, 71472, 71904, 72016, 72784, 73040, 73120, 92768,
   92864, 93008, 120782, 120792, 120802, 120812, 120822, 123200, 123632,
   125264, 130032]

/-- `c` is a character `int()` accepts as a decimal digit (any Unicode
decimal digit, not just ASCII `0`-`9`). -/
def pyIsDigit (c : Char) : Bool :=
  pyDigitStarts.any (fun s => s ≤ c.toNat && c.toNat ≤ s + 9)

/-- The decimal value of a Unicode digit: its offset in its run. -/
def pyDigitVal (c : Char) : Nat :=
  match pyDigitStarts.find? (fun s => s ≤ c.toNat && c.toNat ≤ s + 9) with
  | some s => c.toNat - s
  | none => 0

/-- The codepoints CPython's `int()` strips as whitespace around a numeral
(checked exhaustively against CPython 3.11: `int(ch + "5" + ch) == 5`
exactly for these 25 characters). -/
def wsCodes : List Nat :=
  [9, 10, 11, 12, 13, 32, 133, 160, 5760, 8192, 8193, 8194, 8195, 8196,
   8197, 8198, 8199, 8200, 8201, 8202, 8232, 8233, 8239, 8287, 12288]

/-- `c` is whitespace for `int()`. -/
def pyWhitespace (c : Char) : Bool :=
  wsCodes.any (fun k => c.toNat == k)

/-- Strip leading and trailing `int()`-whitespace. -/
def stripWS (l : List Char) : List Char :=
  ((l.dropWhile pyWhitespace).reverse.dropWhile pyWhitespace).reverse

/-- Numeric value of a digit list (most significant first). -/
def digitsToNat (l : List Char) : Nat :=
  l.foldl (fun acc c => acc * 10 + pyDigitVal c) 0

/-- Python `int(s)`: strip surrounding whitespace, then parse a non-empty
run of Unicode decimal digits; anything else raises `ValueError` (`none`).
See the module comment for the two deliberately unmodelled features. -/
def pyInt (s : String) : Option Nat :=
  if (stripWS s.data).isEmpty then none
  else if (stripWS s.data).all pyIsDigit then some (digitsToNat (stripWS s.data))
  else none

/-- `[int(s) for s in parts]`: every part must parse or the comprehension
raises. -/
def parseParts : List (List Char) → Option (List Nat)
  | [] => some []
  | p :: ps =>
    match pyInt ⟨p⟩, parseParts ps with
    | some n, some ns => some (n :: ns)
    | _, _ => none

/-- `[int(ch) for ch in s]`: each single character must be a digit. -/
def parseChars : List Char → Option (List Nat)
  | [] => some []
  | c :: cs =>
    match pyInt ⟨[c]⟩, parseChars cs with
    | some n, some ns => some (n :: ns)
    | _, _ => none

/-- `nums_0_19` of `num2words`: ordinal or cardinal table for 0..19. -/
def nums0to19 (ordinal : Bool) : List String :=
  if ordinal then
    ["Zeroth", "First", "Second", "Third", "Fourth", "Fifth", "Sixth",
     "Seventh", "Eighth", "Ninth", "Tenth", "Eleventh", "Twelfth",
     "Thirteenth", "Fourteenth", "Fifteenth", "Sixteenth", "Seventeenth",
     "Eighteenth", "Nineteenth"]
  else
    ["Zero", "One", "Two", "Three", "Four", "Five", "Six", "Seven", "Eight",
     "Nine", "Ten", "Eleven", "Twelve", "Thirteen", "Fourteen", "Fifteen",
     "Sixteen", "Seventeen", "Eighteen", "Nineteen"]

/-- `nums_20_90` of `num2words`. -/
def nums20to90 : List String :=
  ["Twenty", "Thirty", "Forty", "Fifty", "Sixty", "Seventy", "Eighty",
   "Ninety"]

/-- `max([key for key in nums_scales.keys() if key <= num])` for the scale
dictionary `{100, 1000, 1000000, 1000000000}`.  For `num ≥ 100` (the only
context in which the source evaluates it) the filtered list is non-empty and
this if-chain returns exactly its maximum, so Python's `max` never raises. -/
def maxScaleKey (num : Nat) : Nat :=
  if 1000000000 ≤ num then 1000000000
  else if 1000000 ≤ num then 1000000
  else if 1000 ≤ num then 1000
  else 100

/-- `nums_scales[key]` at the four keys of the dictionary. -/
def scaleName (k : Nat) : String :=
  if k == 100 then "Hundred"
  else if k == 1000 then "Thousand"
  else if k == 1000000 then "Million"
  else "Billion"

/-- The ordinal-suffix repair of `num2words` (the `word.endswith(('ed','nd',
'n','y'))` patch): if it ends in `y` replace that by `ie`, and in every
matched case append `th`. -/
def ordRepair (word : String) : String :=
  if ["ed", "nd", "n", "y"].any (fun suf => pyEndsWith word suf) then
    (if pyEndsWith word "y" then pyDropRight word 1 ++ "ie" else word) ++ "th"
  else word

/-- Fuel-indexed body of `num2words`.  The fuel only makes the recursion
structural: both recursive arguments `num / maxkey` and `num % maxkey` are
strictly below `num` (shown in `n2wF_congr`), so fuel `num + 1` never runs
out and `num2words` below computes exactly the source's total recursion. -/
def n2wF : Nat → Nat → Bool → String
  | 0, _, _ => ""
  | fuel + 1, num, ordinal =>
    if num < 20 then (nums0to19 ordinal).getD num ""
    else if num < 100 then
      nums20to90.getD (num / 10 - 2) "" ++
        (if num % 10 == 0 then ""
         else " " ++ (nums0to19 ordinal).getD (num % 10) "")
    else
      match ordinal with
      | true =>
        ordRepair
          (n2wF fuel (num / maxScaleKey num) false ++ " " ++
            scaleName (maxScaleKey num) ++
            (if num % maxScaleKey num == 0 then ""
             else " and " ++ n2wF fuel (num % maxScaleKey num) true))
      | false =>
        n2wF fuel (num / maxScaleKey num) false ++ " " ++
          scaleName (maxScaleKey num) ++
          (if num % maxScaleKey num == 0 then ""
           else " and " ++ n2wF fuel (num % maxScaleKey num) false)

/-- `num2words(num, ordinal)` from the source. -/
def num2words (num : Nat) (ordinal : Bool) : String :=
  n2wF (num + 1) num ordinal

lemma maxScaleKey_ge (n : Nat) : 100 ≤ maxScaleKey n := by
  unfold maxScaleKey
  split_ifs <;> norm_num

lemma maxScaleKey_le (n : Nat) (h : 100 ≤ n) : maxScaleKey n ≤ n := by
  unfold maxScaleKey
  split_ifs <;> omega

lemma div_maxScaleKey_lt (n : Nat) (h : 100 ≤ n) : n / maxScaleKey n < n :=
  Nat.div_lt_self (by omega) (by have := maxScaleKey_ge n; omega)

lemma mod_maxScaleKey_lt (n : Nat) (h : 100 ≤ n) : n % maxScaleKey n < n :=
  lt_of_lt_of_le (Nat.mod_lt _ (by have := maxScaleKey_ge n; omega))
    (maxScaleKey_le n h)

/-- Any sufficient fuel computes the same value: the recursion of `num2words`
is well-founded in `num`. -/
lemma n2wF_congr (n : Nat) :
    ∀ f f' o, n < f → n < f' → n2wF f n o = n2wF f' n o := by
  induction n using Nat.strong_induction_on with
  | _ n ih =>
    intro f f' o hf hf'
    match f, f' with
    | g + 1, g' + 1 =>
      by_cases h20 : n < 20
      · simp only [n2wF, if_pos h20]
      · by_cases h100 : n < 100
        · simp only [n2wF, if_neg h20, if_pos h100]
        · have hd := div_maxScaleKey_lt n (by omega)
          have hm := mod_maxScaleKey_lt n (by omega)
          have e1 : n2wF g (n / maxScaleKey n) false
              = n2wF g' (n / maxScaleKey n) false :=
            ih _ hd _ _ _ (by omega) (by omega)
          have e2 : n2wF g (n % maxScaleKey n) true
              = n2wF g' (n % maxScaleKey n) true :=
            ih _ hm _ _ _ (by omega) (by omega)
          have e3 : n2wF g (n % maxScaleKey n) false
              = n2wF g' (n % maxScaleKey n) false :=
            ih _ hm _ _ _ (by omega) (by omega)
          cases o <;>
            simp only [n2wF, if_neg h20, if_neg h100, e1, e2, e3]

/-- Sufficient fuel computes `num2words`. -/
lemma n2wF_num2words (f n : Nat) (o : Bool) (h : n < f) :
    n2wF f n o = num2words n o :=
  n2wF_congr n f (n + 1) o h (Nat.lt_succ_self n)

/-- Unfolding of `num2words` below 20. -/
lemma num2words_lt20 (n : Nat) (o : Bool) (h : n < 20) :
    num2words n o = (nums0to19 o).getD n "" := by
  unfold num2words
  simp only [n2wF, if_pos h]

/-- Unfolding of `num2words` between 20 and 99. -/
lemma num2words_lt100 (n : Nat) (o : Bool) (h20 : ¬ n < 20) (h : n < 100) :
    num2words n o =
      nums20to90.getD (n / 10 - 2) "" ++
        (if n % 10 == 0 then ""
         else " " ++ (nums0to19 o).getD (n % 10) "") := by
  unfold num2words
  simp only [n2wF, if_neg h20, if_pos h]

/-- Unfolding of cardinal `num2words` at and above 100. -/
lemma num2words_ge100_cardinal (n : Nat) (h : ¬ n < 100) :
    num2words n false =
      num2words (n / maxScaleKey n) false ++ " " ++
        scaleName (maxScaleKey n) ++
        (if n % maxScaleKey n == 0 then ""
         else " and " ++ num2words (n % maxScaleKey n) false) := by
  have h20 : ¬ n < 20 := by omega
  have hd := div_maxScaleKey_lt n (by omega)
  have hm := mod_maxScaleKey_lt n (by omega)
  have e : num2words n false = n2wF (n + 1) n false := rfl
  rw [e]
  simp only [n2wF, if_neg h20, if_neg h]
  rw [n2wF_num2words n _ false hd, n2wF_num2words n _ false hm]

/-- Unfolding of ordinal `num2words` at and above 100. -/
lemma num2words_ge100_ordinal (n : Nat) (h : ¬ n < 100) :
    num2words n true =
      ordRepair
        (num2words (n / maxScaleKey n) false ++ " " ++
          scaleName (maxScaleKey n) ++
          (if n % maxScaleKey n == 0 then ""
           else " and " ++ num2words (n % maxScaleKey n) true)) := by
  have h20 : ¬ n < 20 := by omega
  have hd := div_maxScaleKey_lt n (by omega)
  have hm := mod_maxScaleKey_lt n (by omega)
  have e : num2words n true = n2wF (n + 1) n true := rfl
  rw [e]
  simp only [n2wF, if_neg h20, if_neg h]
  rw [n2wF_num2words n _ false hd, n2wF_num2words n _ true hm]

/-- Prefix match of `[0-9]+ op [0-9]+` (the source's `re.match` for the
multiplication patterns `*`/`x`/`X` and the decimal pattern `.`): the
maximal leading digit run is non-empty, the next character is `op`, and a
digit follows it.  Backtracking over `[0-9]+` cannot help (shorter digit
prefixes are followed by a digit, not by `op`), so this is equivalent to the
regex's prefix match for every non-digit `op`. -/
def matchNumOpNum (op : Char) (l : List Char) : Bool :=
  !(l.takeWhile Char.isDigit).isEmpty &&
    match l.dropWhile Char.isDigit with
    | c :: c2 :: _ => c == op && c2.isDigit
    | _ => false

/-- Full match of `[0-9]+[/][0-9]+` (the source's `re.fullmatch` for
divisions): digits, one slash, digits, consuming the entire string. -/
def fullDivMatch (l : List Char) : Bool :=
  !(l.takeWhile Char.isDigit).isEmpty &&
    match l.dropWhile Char.isDigit with
    | c :: rest => c == '/' && !rest.isEmpty && rest.all Char.isDigit
    | _ => false

/-- Full match of `[0-9]+` (the source's `re.fullmatch` for plain numbers). -/
def fullNumMatch (l : List Char) : Bool :=
  !l.isEmpty && l.all Char.isDigit

/-- The remainders that `[0-9]{1,2}` can leave of `l` after consuming one or
two leading digits (the two backtracking alternatives of the regexes for
dates and times). -/
def matchDigits12 (l : List Char) : List (List Char) :=
  match l with
  | c1 :: rest =>
    if c1.isDigit then
      match rest with
      | c2 :: rest2 => if c2.isDigit then [rest2, rest] else [rest]
      | [] => [rest]
    else []
  | [] => []

/-- Consume `[:][0-9]{2}` and return the remainder, if it is there. -/
def matchColon2 (l : List Char) : Option (List Char) :=
  match l with
  | c :: d1 :: d2 :: rest =>
    if c == ':' && d1.isDigit && d2.isDigit then some rest else none
  | _ => none

/-- Prefix match of `[0-9]{1,2}[:][0-9]{2}[:][0-9]{2}` (`re.match` for
`HH:MM:SS` times). -/
def matchHMS (l : List Char) : Bool :=
  (matchDigits12 l).any fun r =>
    match matchColon2 r with
    | some r2 => (matchColon2 r2).isSome
    | none => false

/-- Prefix match of `[0-9]{1,2}[:][0-9]{2}` (`re.match` for `HH:MM` times). -/
def matchHM (l : List Char) : Bool :=
  (matchDigits12 l).any fun r => (matchColon2 r).isSome

/-- Prefix match of `[0-9]{1,2} sep [0-9]{1,2} sep [0-9]{2}([0-9]{0}|[0-9]{2})`
(`re.match` for the three date patterns).  The alternative `[0-9]{0}` always
matches the empty string, so after `[0-9]{2}` the pattern cannot fail. -/
def dateMatch (sep : Char) (l : List Char) : Bool :=
  (matchDigits12 l).any fun r1 =>
    match r1 with
    | c :: r2 =>
      c == sep &&
        ((matchDigits12 r2).any fun r3 =>
          match r3 with
          | c2 :: r4 =>
            c2 == sep &&
              (match r4 with
               | d1 :: d2 :: _ => d1.isDigit && d2.isDigit
               | _ => false)
          | [] => false)
    | [] => false

/-- The tuple of ordinal suffixes recognised by `process_numbers`. -/
def ordsSuffixes : List String :=
  ["0th", "1st", "2nd", "3rd", "4th", "5th", "6th", "7th", "8th", "9th",
   "10th", "11th", "12th", "13th"]

/-- `process_numbers` from the source.  `none` models an uncaught Python
exception (a `ValueError` from `int`, or an `IndexError` escaping from
`trailing_punctuation`). -/
def process_numbers (s : String) : Option String :=
  (trailing_punctuation s).bind fun p =>
    let core := p.1
    let endstr := p.2
    if ordsSuffixes.any (fun suf => pyEndsWith core suf) then
      (pyInt (pyDropRight core 2)).bind fun n =>
        some (num2words n true ++ endstr)
    else if matchNumOpNum '*' core.data then
      (parseParts (pySplit '*' core.data)).bind fun ns =>
        some (String.intercalate " times "
          (ns.map fun k => num2words k false) ++ endstr)
    else if matchNumOpNum 'x' core.data then
      (parseParts (pySplit 'x' core.data)).bind fun ns =>
        some (String.intercalate " times "
          (ns.map fun k => num2words k false) ++ endstr)
    else if matchNumOpNum 'X' core.data then
      (parseParts (pySplit 'X' core.data)).bind fun ns =>
        some (String.intercalate " times "
          (ns.map fun k => num2words k false) ++ endstr)
    else if fullDivMatch core.data then
      (parseParts (pySplit '/' core.data)).bind fun ns =>
        some (String.intercalate " divided by "
          (ns.map fun k => num2words k false) ++ endstr)
    else if fullNumMatch core.data then
      (pyInt core).bind fun n => some (num2words n false ++ endstr)
    else if matchNumOpNum '.' core.data then
      (pySplit '.' core.data)[0]?.bind fun p0 =>
        (pySplit '.' core.data)[1]?.bind fun p1 =>
          (pyInt ⟨p0⟩).bind fun n0 =>
            (parseChars p1).bind fun ds =>
              some (num2words n0 false ++ " point " ++
                String.intercalate " "
                  (ds.map fun d => num2words d false) ++ endstr)
    else if core == "*" then some "times"
    else some (core ++ endstr)

/-- The meridiem suffix tuple of `process_times`. -/
def meridiems : List String :=
  ["am", "pm", "AM", "PM", "a.m", "a.m.", "p.m", "p.m."]

/-- `process_times` from the source.  List indexing and `int` parses are
`Option`-guarded exactly where the Python can raise. -/
def process_times (s : String) : Option String :=
  (trailing_punctuation s).bind fun p =>
    let core := p.1
    let endstr := p.2
    if matchHMS core.data then
      let parts := pySplit ':' core.data
      parts.getLast?.bind fun lastp =>
        if meridiems.any (fun m => pyEndsWith ⟨lastp⟩ m) then
          let parts2 := parts ++ [lastp.drop 2]
          parts2[2]?.bind fun p2 =>
            let parts3 := parts2.set 2 (p2.take 2)
            parts3[0]?.bind fun f0 =>
              parts3[1]?.bind fun f1 =>
                parts3[2]?.bind fun f2 =>
                  parts3[3]?.bind fun f3 =>
                    (pyInt ⟨f0⟩).bind fun h =>
                      (pyInt ⟨f1⟩).bind fun m =>
                        (pyInt ⟨f2⟩).bind fun sec =>
                          some (num2words h false ++ " " ++
                            num2words m false ++ " and " ++
                            num2words sec false ++ " seconds " ++
                            (⟨f3⟩ : String) ++ endstr)
        else
          parts[0]?.bind fun f0 =>
            parts[1]?.bind fun f1 =>
              parts[2]?.bind fun f2 =>
                (pyInt ⟨f0⟩).bind fun h =>
                  (pyInt ⟨f1⟩).bind fun m =>
                    (pyInt ⟨f2⟩).bind fun sec =>
                      some (num2words h false ++ " " ++
                        num2words m false ++ " and " ++
                        num2words sec false ++ " seconds" ++ endstr)
    else if matchHM core.data then
      let parts := pySplit ':' core.data
      parts.getLast?.bind fun lastp =>
        if meridiems.any (fun m => pyEndsWith ⟨lastp⟩ m) then
          let parts2 := parts ++ [lastp.drop 2]
          parts2[1]?.bind fun p1 =>
            let parts3 := parts2.set 1 (p1.take 2)
            parts3[0]?.bind fun f0 =>
              parts3[1]?.bind fun f1 =>
                parts3[2]?.bind fun f2 =>
                  (pyInt ⟨f0⟩).bind fun h =>
                    (pyInt ⟨f1⟩).bind fun m =>
                      some (num2words h false ++ " " ++
                        num2words m false ++ " " ++
                        (⟨f2⟩ : String) ++ endstr)
        else
          parts[0]?.bind fun f0 =>
            parts[1]?.bind fun f1 =>
              (pyInt ⟨f0⟩).bind fun h =>
                (pyInt ⟨f1⟩).bind fun m =>
                  some (num2words h false ++ " " ++
                    num2words m false ++ endstr)
    else some (core ++ endstr)

/-- The two recognised values of the `country` argument of `process_dates`
(a Python string; only `'UK'` and `'US'` are handled). -/
inductive Country
  | UK
  | US

/-- The month-name table of `process_dates` (empty string at index 0). -/
def months : List String :=
  ["", "January", "February", "March", "April", "May", "June", "July",
   "August", "September", "October", "November", "December"]

/-- The lowercase ordinal-word table of `process_dates` (indices 0..31; the
source spells index 28 `twenty eigth`). -/
def ords : List String :=
  ["zeroth", "first", "second", "third", "fourth", "fifth", "sixth",
   "seventh", "eighth", "ninth", "tenth", "eleventh", "twelfth",
   "thirteenth", "fourteenth", "fifteenth", "sixteenth", "seventeenth",
   "eighteenth", "nineteenth", "twentieth", "twenty first", "twenty second",
   "twenty third", "twenty fourth", "twenty fifth", "twenty sixth",
   "twenty seventh", "twenty eigth", "twenty ninth", "thirtieth",
   "thirty first"]

/-- The common body of the six date branches:
`ords[int(p[dayPos])] + ' of ' + months[int(p[monthPos])] + ' ' +
num2words(int(p[2]))` plus the trailing punctuation.  Out-of-range list
indexing raises in Python (`none` here). -/
def dateBuild (parts : List (List Char)) (dayPos monthPos : Nat)
    (endstr : String) : Option String :=
  parts[dayPos]?.bind fun dstr =>
    parts[monthPos]?.bind fun mstr =>
      parts[2]?.bind fun ystr =>
        (pyInt ⟨dstr⟩).bind fun d =>
          (pyInt ⟨mstr⟩).bind fun m =>
            (pyInt ⟨ystr⟩).bind fun y =>
              ords[d]?.bind fun ow =>
                months[m]?.bind fun mw =>
                  some (ow ++ " of " ++ mw ++ " " ++
                    num2words y false ++ endstr)

/-- `process_dates` from the source: three separator patterns tried in the
order backslash, slash, hyphen; UK reads `ords[p[0]]`, `months[p[1]]`, US
reads `ords[p[1]]`, `months[p[0]]`. -/
def process_dates (s : String) (country : Country) : Option String :=
  (trailing_punctuation s).bind fun p =>
    let core := p.1
    let endstr := p.2
    match country with
    | Country.UK =>
      if dateMatch '\\' core.data then
        dateBuild (pySplit '\\' core.data) 0 1 endstr
      else if dateMatch '/' core.data then
        dateBuild (pySplit '/' core.data) 0 1 endstr
      else if dateMatch '-' core.data then
        dateBuild (pySplit '-' core.data) 0 1 endstr
      else some (core ++ endstr)
    | Country.US =>
      if dateMatch '\\' core.data then
        dateBuild (pySplit '\\' core.data) 1 0 endstr
      else if dateMatch '/' core.data then
        dateBuild (pySplit '/' core.data) 1 0 endstr
      else if dateMatch '-' core.data then
        dateBuild (pySplit '-' core.data) 1 0 endstr
      else some (core ++ endstr)

/-! ### Helper lemmas -/

/-- A string with no digit characters. -/
def noDigit (s : String) : Prop := ∀ c ∈ s.data, c.isDigit = false

lemma noDigit_append (s t : String) (hs : noDigit s) (ht : noDigit t) :
    noDigit (s ++ t) := by
  intro c hc
  rw [String.data_append] at hc
  rcases List.mem_append.mp hc with h | h
  · exact hs c h
  · exact ht c h

lemma noDigit_pyDropRight (s : String) (n : Nat) (hs : noDigit s) :
    noDigit (pyDropRight s n) :=
  fun c hc => hs c (List.take_subset _ _ hc)

instance (s : String) : Decidable (noDigit s) := by
  unfold noDigit
  infer_instance

lemma noDigit_getD (l : List String) : ∀ (n : Nat) (d : String),
    (∀ s ∈ l, noDigit s) → noDigit d → noDigit (l.getD n d) := by
  induction l with
  | nil => intro n d _ hd; simpa [List.getD] using hd
  | cons a t ih =>
    intro n d hl hd
    cases n with
    | zero => simpa [List.getD] using hl a (by simp)
    | succ m =>
      simpa [List.getD] using
        ih m d (fun s hs => hl s (List.mem_cons_of_mem _ hs)) hd

lemma noDigit_nums0to19 (o : Bool) : ∀ s ∈ nums0to19 o, noDigit s := by
  cases o <;> decide

lemma noDigit_nums20to90 : ∀ s ∈ nums20to90, noDigit s := by decide

lemma noDigit_scaleName (k : Nat) : noDigit (scaleName k) := by
  unfold scaleName
  split_ifs <;> decide

lemma noDigit_ordRepair (w : String) (h : noDigit w) : noDigit (ordRepair w) := by
  unfold ordRepair
  split_ifs with h1 h2
  · exact noDigit_append _ _
      (noDigit_append _ _ (noDigit_pyDropRight _ _ h) (by decide)) (by decide)
  · exact noDigit_append _ _ h (by decide)
  · exact h

/-- `num2words` never emits a digit character, for any argument and mode. -/
lemma noDigit_num2words : ∀ n o, noDigit (num2words n o) := by
  intro n
  induction n using Nat.strong_induction_on with
  | _ n ih =>
    intro o
    by_cases h20 : n < 20
    · rw [num2words_lt20 n o h20]
      exact noDigit_getD _ _ _ (noDigit_nums0to19 o) (by decide)
    · by_cases h100 : n < 100
      · rw [num2words_lt100 n o h20 h100]
        apply noDigit_append
        · exact noDigit_getD _ _ _ noDigit_nums20to90 (by decide)
        · split_ifs
          · decide
          · exact noDigit_append _ _ (by decide)
              (noDigit_getD _ _ _ (noDigit_nums0to19 o) (by decide))
      · have hd := div_maxScaleKey_lt n (by omega)
        have hm := mod_maxScaleKey_lt n (by omega)
        have core : noDigit
            (num2words (n / maxScaleKey n) false ++ " " ++
              scaleName (maxScaleKey n) ++
              (if n % maxScaleKey n == 0 then ""
               else " and " ++ num2words (n % maxScaleKey n) o)) := by
          apply noDigit_append
          · apply noDigit_append
            · apply noDigit_append
              · exact ih _ hd false
              · decide
            · exact noDigit_scaleName _
          · split_ifs
            · decide
            · exact noDigit_append _ _ (by decide) (ih _ hm o)
        cases o
        · rw [num2words_ge100_cardinal n h100]
          exact core
        · rw [num2words_ge100_ordinal n h100]
          exact noDigit_ordRepair _ core

lemma startsWithL_mem (p t : List Char) (h : startsWithL p t = true) :
    ∀ c ∈ p, c ∈ t := by
  induction p generalizing t with
  | nil => intro c hc; cases hc
  | cons a ps ih =>
    cases t with
    | nil => simp [startsWithL] at h
    | cons b ts =>
      rw [startsWithL, Bool.and_eq_true, beq_iff_eq] at h
      intro c hc
      rcases List.mem_cons.mp hc with rfl | hc
      · rw [h.1]; exact List.mem_cons_self _ _
      · exact List.mem_cons_of_mem _ (ih ts h.2 c hc)

lemma isSubstrOf_mem (p t : List Char) (h : isSubstrOf p t = true) :
    ∀ c ∈ p, c ∈ t := by
  induction t with
  | nil =>
    cases p with
    | nil => intro c hc; cases hc
    | cons a ps => simp [isSubstrOf, startsWithL] at h
  | cons b ts ih =>
    rw [isSubstrOf, Bool.or_eq_true] at h
    rcases h with h1 | h2
    · exact startsWithL_mem _ _ h1
    · intro c hc
      exact List.mem_cons_of_mem _ (ih h2 c hc)

/-- A list containing a digit cannot be a substring of the punctuation
literal. -/
lemma isSubstrOf_punct_false (l : List Char) (c : Char) (hc : c ∈ l)
    (hd : c.isDigit = true) : isSubstrOf l punctuation.data = false := by
  cases h : isSubstrOf l punctuation.data
  · rfl
  · have hmem := isSubstrOf_mem l punctuation.data h c hc
    have hnd : ∀ x ∈ punctuation.data, x.isDigit = false := by decide
    rw [hnd c hmem] at hd
    cases hd

/-- `trailing_punctuation` keeps a token whole when its last character is not
punctuation (and the token is not a substring of the punctuation literal). -/
lemma trailing_keep (l : List Char) (c : Char)
    (hsub : isSubstrOf (l ++ [c]) punctuation.data = false)
    (hc : c ∉ punctuation.data) :
    trailing_punctuation ⟨l ++ [c]⟩ = some (⟨l ++ [c]⟩, "") := by
  unfold trailing_punctuation
  simp [hsub, List.reverse_append, scanLoop, hc]

lemma takeWhile_append_all (p : Char → Bool) (a l : List Char)
    (h : ∀ c ∈ a, p c = true) :
    (a ++ l).takeWhile p = a ++ l.takeWhile p := by
  induction a with
  | nil => rfl
  | cons x xs ih =>
    simp only [List.cons_append, List.takeWhile_cons, h x (by simp), if_pos]
    rw [ih (fun c hc => h c (List.mem_cons_of_mem _ hc))]

lemma dropWhile_append_all (p : Char → Bool) (a l : List Char)
    (h : ∀ c ∈ a, p c = true) :
    (a ++ l).dropWhile p = l.dropWhile p := by
  induction a with
  | nil => rfl
  | cons x xs ih =>
    simp only [List.cons_append, List.dropWhile_cons, h x (by simp), if_pos]
    exact ih (fun c hc => h c (List.mem_cons_of_mem _ hc))

lemma takeWhile_digits (a l : List Char) (c : Char)
    (had : ∀ x ∈ a, x.isDigit = true) (hc : c.isDigit = false) :
    (a ++ c :: l).takeWhile Char.isDigit = a := by
  rw [takeWhile_append_all _ _ _ had, List.takeWhile_cons, hc]
  simp

lemma dropWhile_digits (a l : List Char) (c : Char)
    (had : ∀ x ∈ a, x.isDigit = true) (hc : c.isDigit = false) :
    (a ++ c :: l).dropWhile Char.isDigit = c :: l := by
  rw [dropWhile_append_all _ _ _ had, List.dropWhile_cons, hc]
  simp

/-- The `[0-9]+ op [0-9]+` prefix match fires on `digits ++ op ++ digits ++
anything`. -/
lemma matchNumOpNum_true (op : Char) (a b extra : List Char)
    (hop : op.isDigit = false)
    (ha : a ≠ []) (had : ∀ x ∈ a, x.isDigit = true)
    (hb : b ≠ []) (hbd : ∀ x ∈ b, x.isDigit = true) :
    matchNumOpNum op (a ++ op :: (b ++ extra)) = true := by
  unfold matchNumOpNum
  rw [takeWhile_digits _ _ _ had hop, dropWhile_digits _ _ _ had hop]
  cases b with
  | nil => exact absurd rfl hb
  | cons bh bt =>
    have hbh : bh.isDigit = true := hbd bh (by simp)
    simp [List.isEmpty_eq_false.mpr ha, hbh]

/-- The `[0-9]+ op [0-9]+` prefix match fails when the character after the
leading digit run is not `op`. -/
lemma matchNumOpNum_false (op c : Char) (a r : List Char)
    (had : ∀ x ∈ a, x.isDigit = true) (hc : c.isDigit = false)
    (hne : c ≠ op) :
    matchNumOpNum op (a ++ c :: r) = false := by
  unfold matchNumOpNum
  rw [dropWhile_digits _ _ _ had hc]
  cases r with
  | nil => simp
  | cons r0 rt => simp [hne]

/-- The full `[0-9]+[/][0-9]+` match fails when the character after the
leading digit run is not a slash. -/
lemma fullDivMatch_false (c : Char) (a r : List Char)
    (had : ∀ x ∈ a, x.isDigit = true) (hc : c.isDigit = false)
    (hne : c ≠ '/') :
    fullDivMatch (a ++ c :: r) = false := by
  unfold fullDivMatch
  rw [dropWhile_digits _ _ _ had hc]
  simp [hne]

/-- The full `[0-9]+` match fails on a list containing a non-digit. -/
lemma fullNumMatch_false (l : List Char) (c : Char) (hc : c ∈ l)
    (h : c.isDigit = false) : fullNumMatch l = false := by
  unfold fullNumMatch
  have hall : l.all Char.isDigit = false := by
    cases hq : l.all Char.isDigit
    · rfl
    · rw [List.all_eq_true] at hq
      rw [hq c hc] at h
      cases h
  simp [hall]

lemma mem_dropWhile_of_not (p : Char → Bool) (l : List Char) (c : Char)
    (hc : c ∈ l) (h : p c = false) : c ∈ l.dropWhile p := by
  induction l with
  | nil => cases hc
  | cons x xs ih =>
    rw [List.dropWhile_cons]
    by_cases hx : p x = true
    · rw [if_pos hx]
      rcases List.mem_cons.mp hc with rfl | hcc
      · rw [hx] at h
        cases h
      · exact ih hcc
    · rw [if_neg hx]
      exact hc

lemma dropWhile_eq_self_of_all (p : Char → Bool) (l : List Char)
    (h : ∀ c ∈ l, p c = false) : l.dropWhile p = l := by
  cases l with
  | nil => rfl
  | cons x xs =>
    rw [List.dropWhile_cons, if_neg (ne_true_of_eq_false (h x (by simp)))]

/-- A non-whitespace character survives the whitespace strip. -/
lemma mem_stripWS (l : List Char) (c : Char) (hc : c ∈ l)
    (h : pyWhitespace c = false) : c ∈ stripWS l := by
  unfold stripWS
  refine List.mem_reverse.mpr ?_
  refine mem_dropWhile_of_not _ _ _ ?_ h
  refine List.mem_reverse.mpr ?_
  exact mem_dropWhile_of_not _ _ _ hc h

/-- The whitespace strip is the identity on whitespace-free lists. -/
lemma stripWS_eq_self (l : List Char) (h : ∀ c ∈ l, pyWhitespace c = false) :
    stripWS l = l := by
  unfold stripWS
  rw [dropWhile_eq_self_of_all _ _ h]
  rw [dropWhile_eq_self_of_all _ _ (fun c hc => h c (List.mem_reverse.mp hc))]
  exact List.reverse_reverse l

lemma isDigit_toNat_bounds (c : Char) (h : c.isDigit = true) :
    48 ≤ c.toNat ∧ c.toNat ≤ 57 := by
  simp only [Char.isDigit, Bool.and_eq_true, decide_eq_true_eq] at h
  exact h

/-- ASCII digits are `int()` digits (the run starting at 48). -/
lemma pyIsDigit_of_isDigit (c : Char) (h : c.isDigit = true) :
    pyIsDigit c = true := by
  obtain ⟨h1, h2⟩ := isDigit_toNat_bounds c h
  unfold pyIsDigit
  rw [List.any_eq_true]
  refine ⟨48, by decide, ?_⟩
  simp only [Bool.and_eq_true, decide_eq_true_eq]
  omega

lemma wsCodes_avoid_digits : ∀ k ∈ wsCodes, k < 48 ∨ 57 < k := by decide

/-- ASCII digits are not `int()`-whitespace. -/
lemma pyWhitespace_of_isDigit (c : Char) (h : c.isDigit = true) :
    pyWhitespace c = false := by
  obtain ⟨h1, h2⟩ := isDigit_toNat_bounds c h
  unfold pyWhitespace
  cases hq : wsCodes.any (fun k => c.toNat == k)
  · rfl
  · rw [List.any_eq_true] at hq
    obtain ⟨k, hk, he⟩ := hq
    have hv : c.toNat = k := beq_iff_eq.mp he
    have := wsCodes_avoid_digits k hk
    exfalso
    omega

lemma pyInt_none_of_mem (s : String) (c : Char) (hc : c ∈ s.data)
    (hnd : pyIsDigit c = false) (hnw : pyWhitespace c = false) :
    pyInt s = none := by
  unfold pyInt
  have hmem : c ∈ stripWS s.data := mem_stripWS _ _ hc hnw
  have h1 : (stripWS s.data).isEmpty = false :=
    List.isEmpty_eq_false.mpr (List.ne_nil_of_mem hmem)
  have h2 : (stripWS s.data).all pyIsDigit = false := by
    cases hq : (stripWS s.data).all pyIsDigit
    · rfl
    · rw [List.all_eq_true] at hq
      rw [hq c hmem] at hnd
      cases hnd
  simp [h1, h2]

/-- `int()` fails on any single character that is not a decimal digit
(a lone whitespace character strips to the empty string, which also
fails). -/
lemma pyInt_single_none (c : Char) (h : pyIsDigit c = false) :
    pyInt ⟨[c]⟩ = none := by
  by_cases hw : pyWhitespace c = true
  · have hstrip : stripWS [c] = [] := by
      unfold stripWS
      rw [show ([c] : List Char).dropWhile pyWhitespace = [] by
        rw [List.dropWhile_cons, if_pos hw]
        rfl]
      rfl
    have hd : (String.mk [c]).data = [c] := rfl
    unfold pyInt
    rw [hd, hstrip]
    rfl
  · have hw' : pyWhitespace c = false := by
      cases hq : pyWhitespace c
      · rfl
      · exact absurd hq hw
    exact pyInt_none_of_mem _ c (by simp) h hw'

lemma pyInt_digits (l : List Char) (hne : l ≠ [])
    (hd : ∀ c ∈ l, c.isDigit = true) :
    pyInt ⟨l⟩ = some (digitsToNat l) := by
  have hw : ∀ c ∈ l, pyWhitespace c = false :=
    fun c hc => pyWhitespace_of_isDigit c (hd c hc)
  have hp : ∀ c ∈ l, pyIsDigit c = true :=
    fun c hc => pyIsDigit_of_isDigit c (hd c hc)
  have hdata : (String.mk l).data = l := rfl
  unfold pyInt
  rw [hdata, stripWS_eq_self l hw]
  simp [List.isEmpty_eq_false.mpr hne, List.all_eq_true.mpr hp]

lemma pySplit_ne_nil (sep : Char) (l : List Char) : pySplit sep l ≠ [] := by
  cases l with
  | nil => simp [pySplit]
  | cons c rest =>
    simp only [pySplit]
    by_cases h : (c == sep) = true
    · simp [h]
    · have h' : (c == sep) = false := by
        cases hq : (c == sep)
        · rfl
        · exact absurd hq h
      cases hq : pySplit sep rest <;> simp [h', hq]

/-- Every non-separator element of the list lands in some field of the
split. -/
lemma pySplit_mem (sep : Char) (l : List Char) (c : Char) (hc : c ∈ l)
    (hne : c ≠ sep) : ∃ part ∈ pySplit sep l, c ∈ part := by
  induction l with
  | nil => cases hc
  | cons h t ih =>
    by_cases hs : (h == sep) = true
    · rcases List.mem_cons.mp hc with rfl | hct
      · exact absurd (beq_iff_eq.mp hs) hne
      · rcases ih hct with ⟨part, hp, hcp⟩
        refine ⟨part, ?_, hcp⟩
        simp only [pySplit, hs, if_pos]
        exact List.mem_cons_of_mem _ hp
    · have hs' : (h == sep) = false := by
        cases hq : (h == sep)
        · rfl
        · exact absurd hq hs
      obtain ⟨ph, pt, hsplit⟩ : ∃ ph pt, pySplit sep t = ph :: pt := by
        cases hq : pySplit sep t with
        | nil => exact absurd hq (pySplit_ne_nil sep t)
        | cons x xs => exact ⟨x, xs, rfl⟩
      rcases List.mem_cons.mp hc with rfl | hct
      · refine ⟨c :: ph, ?_, by simp⟩
        simp [pySplit, hs', hsplit]
      · rcases ih hct with ⟨part, hp, hcp⟩
        rw [hsplit] at hp
        rcases List.mem_cons.mp hp with rfl | hpt
        · refine ⟨h :: part, ?_, List.mem_cons_of_mem _ hcp⟩
          simp [pySplit, hs', hsplit]
        · refine ⟨part, ?_, hcp⟩
          simp only [pySplit, hs', Bool.false_eq_true, if_false, hsplit]
          exact List.mem_cons_of_mem _ hpt

/-- The first field of a split is the run before the first separator. -/
lemma pySplit_head (sep : Char) (l : List Char) :
    ∃ t, pySplit sep l = (l.takeWhile fun c => !(c == sep)) :: t := by
  induction l with
  | nil => exact ⟨[], rfl⟩
  | cons h rest ih =>
    by_cases hs : (h == sep) = true
    · refine ⟨pySplit sep rest, ?_⟩
      simp only [pySplit, List.takeWhile_cons, hs]
      simp
    · have hs' : (h == sep) = false := by
        cases hq : (h == sep)
        · rfl
        · exact absurd hq hs
      rcases ih with ⟨t, ht⟩
      refine ⟨t, ?_⟩
      simp only [pySplit, List.takeWhile_cons, hs', ht]
      simp

/-- Splitting `digits ++ sep ++ rest` at `sep` yields the digits as the first
field. -/
lemma pySplit_append_sep (sep : Char) (a rest : List Char)
    (h : ∀ c ∈ a, (c == sep) = false) :
    pySplit sep (a ++ sep :: rest) = a :: pySplit sep rest := by
  induction a with
  | nil => simp [pySplit]
  | cons x xs ih =>
    have hx := h x (by simp)
    have hxs := ih (fun c hc => h c (List.mem_cons_of_mem _ hc))
    simp only [List.cons_append, pySplit, hx, Bool.false_eq_true, if_false,
      List.append_eq, hxs]

lemma parseParts_none (parts : List (List Char)) (part : List Char)
    (hp : part ∈ parts) (h : pyInt ⟨part⟩ = none) :
    parseParts parts = none := by
  induction parts with
  | nil => cases hp
  | cons q qs ih =>
    rcases List.mem_cons.mp hp with rfl | hq
    · unfold parseParts
      rw [h]
    · unfold parseParts
      rw [ih hq]
      cases pyInt ⟨q⟩ <;> rfl

lemma parseChars_none (l : List Char) (c : Char) (hc : c ∈ l)
    (h : pyIsDigit c = false) : parseChars l = none := by
  induction l with
  | nil => cases hc
  | cons q qs ih =>
    rcases List.mem_cons.mp hc with rfl | hq
    · unfold parseChars
      rw [pyInt_single_none c h]
    · unfold parseChars
      rw [ih hq]
      cases pyInt ⟨[q]⟩ <;> rfl

/-- A character survives `take n` of `a ++ c :: l` when `n` covers it. -/
lemma mem_take_append (a l : List Char) (c : Char) (n : Nat)
    (h : a.length + 1 ≤ n) : c ∈ (a ++ c :: l).take n := by
  induction a generalizing n with
  | nil =>
    cases n with
    | zero => omega
    | succ m => simp [List.take_succ_cons]
  | cons x xs ih =>
    cases n with
    | zero => simp at h
    | succ m =>
      simp only [List.cons_append, List.take_succ_cons]
      refine List.mem_cons_of_mem _ (ih m ?_)
      simp at h
      omega

/-- Python `str.lower()` (character-wise lowercasing), used to state the
"up to letter case" claims. -/
def pyLower (s : String) : String := ⟨s.data.map Char.toLower⟩

/-! ### Claim theorems -/

/-- C1: evaluation of the code at the failing input.  `trailing_punctuation`
on the token `"ab,."` returns the pair `("ab", ".,")`: the trailing run is
produced in *reversed* order (the scan accumulates characters of the reversed
string), so `core ++ trailing` is `"ab.,"`, not the original token `"ab,."`.
The claimed invariant `core + trailing == t` with `trailing` in original
character order fails. -/
theorem trailing_punctuation_reverses_trailing_run :
    trailing_punctuation "ab,." = some ("ab", ".,") ∧
      ("ab" ++ ".," : String) ≠ "ab,." := by decide

/-- C2 counterexample: `num2words(10^12)` does not fail with any error — the
scale key `10^9` ("Billion") is still the largest key below the argument, so
the recursion succeeds and returns the worded string `"One Thousand
Billion"`.  This refutes the claim that every `n ≥ 10^12` fails with an
OutOfRange error and returns no worded string. -/
theorem num2words_trillion_value :
    num2words 1000000000000 false = "One Thousand Billion" := by decide

/-- C2 amended: for every `n ≥ 10^12` (bounded by `2^53`, within which the
source's float division `int(num/maxkey)` coincides with floor division),
`num2words` does not fail: it picks the Billion scale and returns a worded
string via the usual recursion. -/
theorem num2words_ge_trillion_billion_scale (n : Nat)
    (h1 : 1000000000000 ≤ n) (h2 : n < 2 ^ 53) :
    num2words n false =
      num2words (n / 1000000000) false ++ " " ++ "Billion" ++
        (if n % 1000000000 == 0 then ""
         else " and " ++ num2words (n % 1000000000) false) := by
  have h : ¬ n < 100 := by omega
  have hk : maxScaleKey n = 1000000000 := by
    unfold maxScaleKey
    rw [if_pos (by omega)]
  rw [num2words_ge100_cardinal n h, hk]
  rfl

/-- Witness for C2's amended theorem at `n = 10^12`. -/
theorem num2words_ge_trillion_billion_scale_witness :
    (1000000000000 ≤ 1000000000000 ∧ 1000000000000 < 2 ^ 53) ∧
      num2words 1000000000000 false =
        num2words (1000000000000 / 1000000000) false ++ " " ++ "Billion" ++
          (if 1000000000000 % 1000000000 == 0 then ""
           else " and " ++ num2words (1000000000000 % 1000000000) false) :=
  ⟨by decide,
    num2words_ge_trillion_billion_scale 1000000000000 (by decide) (by decide)⟩

/-- C3 counterexample: the ordinal-suffix repair does not apply to all
ordinal outputs.  `num2words(20, ordinal=True)` is `"Twenty"` (the `< 100`
branch returns the tens word without any repair), not `"Twentieth"`, and
`num2words(100, ordinal=True)` is `"One Hundredth"`, not `"Hundredth"`. -/
theorem num2words_ordinal_20_100_counterexample :
    num2words 20 true ≠ "Twentieth" ∧ num2words 100 true ≠ "Hundredth" := by
  decide

/-- C3 amended: the suffix repair runs only in the `num ≥ 100` branch, so
`num2words(20, ordinal=True) = "Twenty"` (unrepaired) while
`num2words(100, ordinal=True) = "One Hundredth"` (repaired, with the leading
cardinal multiplier "One"). -/
theorem num2words_ordinal_20_100_values :
    num2words 20 true = "Twenty" ∧ num2words 100 true = "One Hundredth" := by
  decide

/-- C4 counterexample: `num2words(1999)` is not
`"One Thousand Nine Hundred and Ninety Nine"` — the recursion inserts
`" and "` before *every* non-zero remainder, at every scale level. -/
theorem num2words_1999_counterexample :
    num2words 1999 false ≠ "One Thousand Nine Hundred and Ninety Nine" := by
  decide

/-- C4 amended: `num2words(1999)` is
`"One Thousand and Nine Hundred and Ninety Nine"`: the `" and "` connective
is inserted before the remainder of every scale level with a non-zero
remainder (as the source's own comment states), not only before the final
tens-and-ones remainder. -/
theorem num2words_1999_value :
    num2words 1999 false =
      "One Thousand and Nine Hundred and Ninety Nine" := by decide

/-- C5: evaluation of the code at the failing input.  On the all-punctuation
token `"!!"` the guard `string in punctuation` is a Python *substring* test;
`"!!"` is not a contiguous substring of the punctuation literal, so the
reversed scan runs past the end of the string and raises `IndexError`
(modelled by `none`) instead of returning `("!!", "")`. -/
theorem trailing_punctuation_all_punct_crash :
    trailing_punctuation "!!" = none := by decide

/-- C6: evaluation of the code at the failing input.  The token `"hello!?"`
matches none of the `process_numbers` rules, yet the stage returns
`"hello?!"` — the trailing punctuation is re-appended in reversed order, so
the unmatched token is *not* returned byte-identical (contradicting the
source's own comment "The string didn't match any of the regex, so leave it
unchanged"). -/
theorem process_numbers_unmatched_token_changed :
    process_numbers "hello!?" = some "hello?!" ∧
      ("hello?!" : String) ≠ "hello!?" := by decide

/-- C7: for every `n ≤ 999999999`, `num2words n` terminates (the recursion
is exhibited as well-founded: `n2wF_congr` shows fuel-independence, so the
total function below is the source's recursion) and its result contains no
digit character. -/
theorem num2words_range_no_digits (n : Nat) (h : n ≤ 999999999) :
    ∀ c ∈ (num2words n false).data, c.isDigit = false :=
  noDigit_num2words n false

/-- Witness for C7 at `n = 1999`. -/
theorem num2words_range_no_digits_witness :
    1999 ≤ 999999999 ∧
      ∀ c ∈ (num2words 1999 false).data, c.isDigit = false :=
  ⟨by decide, num2words_range_no_digits 1999 (by decide)⟩

/-- C8: up to letter case, `process_dates` maps `"01/12/2000"` to
`"first of December two thousand"` with country=UK (day, month, year) and to
`"twelfth of January two thousand"` with country=US (month, day, year). -/
theorem process_dates_uk_us_example :
    (process_dates "01/12/2000" Country.UK).map pyLower =
        some "first of december two thousand" ∧
      (process_dates "01/12/2000" Country.US).map pyLower =
        some "twelfth of january two thousand" := by decide

/-- C9: up to letter case, `process_times` maps `"12:35pm"` (attached
meridiem detected on the minutes field and detached) to
`"twelve thirty five pm"`, and `"10:14:35"` (no meridiem) to
`"ten fourteen and thirty five seconds"`. -/
theorem process_times_examples :
    (process_times "12:35pm").map pyLower =
        some "twelve thirty five pm" ∧
      (process_times "10:14:35").map pyLower =
        some "ten fourteen and thirty five seconds" := by decide

/-- C10 counterexample: the decimal rule also matches only a prefix, but
extra characters after the first fractional field do *not* make the parse
fail: on the core `"1.2.a"` the decimal branch fires and uses only the
fields `"1"` and `"2"`, returning the string `"One point Two"` — so
`process_numbers` does return a string on this token of the claimed form
(core beginning `digits '.' digits` followed by non-digit characters). -/
theorem process_numbers_decimal_prefix_counterexample :
    process_numbers "1.2.a" = some "One point Two" := by decide

/-- C10 amended: the multiplication and decimal rules match only a prefix of
the core.  For every core of the form `digits '*' digits` followed by
non-empty trailing junk — characters that are not decimal digits in the
sense of `int()` (no Unicode decimal digit, in particular no ASCII digit)
and not whitespace (characters of a whitespace-delimited token never are),
ending in a non-punctuation character so the core survives
`trailing_punctuation` unchanged — `process_numbers` raises (`none`): some
branch's `int` parse fails.  The decimal form `digits '.' digits ++ extra`
likewise raises — but only when the extra characters do not begin with a
second `'.'`; if they do, the decimal branch succeeds using only the first
two fields (see the counterexample
`process_numbers_decimal_prefix_counterexample`).  Junk containing a
Unicode digit such as `'١'` is genuinely outside the failing set: on
`"12*13١"` the program returns `"Twelve times One Hundred and Thirty One"`
because `int("13١") = 131`. -/
theorem process_numbers_prefix_junk_fails
    (a b extra : List Char)
    (ha : a ≠ []) (had : ∀ c ∈ a, c.isDigit = true)
    (hb : b ≠ []) (hbd : ∀ c ∈ b, c.isDigit = true)
    (hx : extra ≠ []) (hxd : ∀ c ∈ extra, pyIsDigit c = false)
    (hxw : ∀ c ∈ extra, pyWhitespace c = false)
    (hlast : ∀ h : extra ≠ [], extra.getLast h ∉ punctuation.data) :
    process_numbers ⟨a ++ '*' :: (b ++ extra)⟩ = none ∧
      (extra.head? ≠ some '.' →
        process_numbers ⟨a ++ '.' :: (b ++ extra)⟩ = none) := by
  obtain ⟨ys, c, hce⟩ := (List.eq_nil_or_concat extra).resolve_left hx
  rw [List.concat_eq_append] at hce
  subst hce
  have hblen : 0 < b.length := List.length_pos.mpr hb
  have halen : 0 < a.length := List.length_pos.mpr ha
  have hc_nd : pyIsDigit c = false := hxd c (by simp)
  have hc_nw : pyWhitespace c = false := hxw c (by simp)
  have hcp : c ∉ punctuation.data := by
    have h0 := hlast hx
    simpa using h0
  have hcs : c ≠ '*' := fun hEq => hcp (hEq ▸ (by decide : ('*' : Char) ∈ punctuation.data))
  obtain ⟨ah, arest, haeq⟩ : ∃ ah arest, a = ah :: arest := by
    cases a with
    | nil => exact absurd rfl ha
    | cons x xs => exact ⟨x, xs, rfl⟩
  have hah : ah.isDigit = true := had ah (by rw [haeq]; simp)
  constructor
  · -- multiplication form
    have hsub : isSubstrOf (a ++ '*' :: (b ++ (ys ++ [c]))) punctuation.data = false :=
      isSubstrOf_punct_false _ ah (by rw [haeq]; simp) hah
    have hstrip : trailing_punctuation ⟨a ++ '*' :: (b ++ (ys ++ [c]))⟩ =
        some (⟨a ++ '*' :: (b ++ (ys ++ [c]))⟩, "") := by
      rw [show a ++ '*' :: (b ++ (ys ++ [c])) = (a ++ '*' :: (b ++ ys)) ++ [c] by simp]
      refine trailing_keep _ c ?_ hcp
      rw [show (a ++ '*' :: (b ++ ys)) ++ [c] = a ++ '*' :: (b ++ (ys ++ [c])) by simp]
      exact hsub
    unfold process_numbers
    rw [hstrip]
    simp only [Option.some_bind]
    cases hords : ordsSuffixes.any fun suf =>
        pyEndsWith ⟨a ++ '*' :: (b ++ (ys ++ [c]))⟩ suf with
    | true =>
      rw [if_pos rfl]
      have hp : pyInt (pyDropRight ⟨a ++ '*' :: (b ++ (ys ++ [c]))⟩ 2) = none := by
        refine pyInt_none_of_mem _ '*' ?_ (by decide) (by decide)
        show '*' ∈ (a ++ '*' :: (b ++ (ys ++ [c]))).take
          ((a ++ '*' :: (b ++ (ys ++ [c]))).length - 2)
        refine mem_take_append a _ '*' _ ?_
        simp only [List.length_append, List.length_cons]
        omega
      rw [hp, Option.none_bind]
    | false =>
      rw [if_neg (show ¬ (false = true) by decide)]
      rw [if_pos (matchNumOpNum_true '*' a b (ys ++ [c]) (by decide) ha had hb hbd)]
      obtain ⟨part, hpmem, hcin⟩ :=
        pySplit_mem '*' (a ++ '*' :: (b ++ (ys ++ [c]))) c (by simp) hcs
      rw [parseParts_none _ part hpmem
          (pyInt_none_of_mem ⟨part⟩ c hcin hc_nd hc_nw),
        Option.none_bind]
  · -- decimal form
    intro hhead
    obtain ⟨e0, etail, hcons⟩ : ∃ e0 etail, ys ++ [c] = e0 :: etail := by
      cases ys with
      | nil => exact ⟨c, [], rfl⟩
      | cons y0 yt => exact ⟨y0, yt ++ [c], rfl⟩
    have he0_nd : pyIsDigit e0 = false := hxd e0 (by rw [hcons]; simp)
    have he0_ne : e0 ≠ '.' := by
      intro hEq
      apply hhead
      rw [hcons, hEq]
      rfl
    have hsub : isSubstrOf (a ++ '.' :: (b ++ (ys ++ [c]))) punctuation.data = false :=
      isSubstrOf_punct_false _ ah (by rw [haeq]; simp) hah
    have hstrip : trailing_punctuation ⟨a ++ '.' :: (b ++ (ys ++ [c]))⟩ =
        some (⟨a ++ '.' :: (b ++ (ys ++ [c]))⟩, "") := by
      rw [show a ++ '.' :: (b ++ (ys ++ [c])) = (a ++ '.' :: (b ++ ys)) ++ [c] by simp]
      refine trailing_keep _ c ?_ hcp
      rw [show (a ++ '.' :: (b ++ ys)) ++ [c] = a ++ '.' :: (b ++ (ys ++ [c])) by simp]
      exact hsub
    unfold process_numbers
    rw [hstrip]
    simp only [Option.some_bind]
    cases hords : ordsSuffixes.any fun suf =>
        pyEndsWith ⟨a ++ '.' :: (b ++ (ys ++ [c]))⟩ suf with
    | true =>
      rw [if_pos rfl]
      have hp : pyInt (pyDropRight ⟨a ++ '.' :: (b ++ (ys ++ [c]))⟩ 2) = none := by
        refine pyInt_none_of_mem _ '.' ?_ (by decide) (by decide)
        show '.' ∈ (a ++ '.' :: (b ++ (ys ++ [c]))).take
          ((a ++ '.' :: (b ++ (ys ++ [c]))).length - 2)
        refine mem_take_append a _ '.' _ ?_
        simp only [List.length_append, List.length_cons]
        omega
      rw [hp, Option.none_bind]
    | false =>
      rw [if_neg (show ¬ (false = true) by decide)]
      rw [if_neg (ne_true_of_eq_false
        (matchNumOpNum_false '*' '.' a _ had (by decide) (by decide)))]
      rw [if_neg (ne_true_of_eq_false
        (matchNumOpNum_false 'x' '.' a _ had (by decide) (by decide)))]
      rw [if_neg (ne_true_of_eq_false
        (matchNumOpNum_false 'X' '.' a _ had (by decide) (by decide)))]
      rw [if_neg (ne_true_of_eq_false
        (fullDivMatch_false '.' a _ had (by decide) (by decide)))]
      rw [if_neg (ne_true_of_eq_false
        (fullNumMatch_false _ '.' (by simp) (by decide)))]
      rw [if_pos (matchNumOpNum_true '.' a b (ys ++ [c]) (by decide) ha had hb hbd)]
      have hdig_ne : ∀ x ∈ a, (x == '.') = false := by
        intro x hxa
        rw [beq_eq_false_iff_ne]
        intro hEq
        have := had x hxa
        rw [hEq] at this
        exact absurd this (by decide)
      rw [pySplit_append_sep '.' a _ hdig_ne]
      obtain ⟨t2, ht2⟩ := pySplit_head '.' (b ++ (ys ++ [c]))
      rw [ht2]
      simp only [List.getElem?_cons_zero, List.getElem?_cons_succ,
        Option.some_bind]
      rw [pyInt_digits a ha had, Option.some_bind]
      have htw : (b ++ (ys ++ [c])).takeWhile (fun x => !(x == '.')) =
          b ++ (e0 :: etail.takeWhile (fun x => !(x == '.'))) := by
        rw [takeWhile_append_all _ b _ (by
          intro x hxb
          have := hbd x hxb
          simp only [Bool.not_eq_true']
          rw [beq_eq_false_iff_ne]
          intro hEq
          rw [hEq] at this
          exact absurd this (by decide))]
        rw [hcons, List.takeWhile_cons]
        have hg : (!(e0 == '.')) = true := by
          simp only [Bool.not_eq_true']
          exact beq_eq_false_iff_ne.mpr he0_ne
        rw [if_pos hg]
      rw [htw]
      rw [parseChars_none _ e0 (by simp) he0_nd, Option.none_bind]

/-- Model fidelity check for the `int()` embedding: junk that is a Unicode
decimal digit does not make the multiplication branch fail — `int("13١")`
is 131, so the program (and the model) returns a worded string. -/
lemma process_numbers_unicode_digit_example :
    process_numbers "12*13١" =
      some "Twelve times One Hundred and Thirty One" := by decide

/-- Witness for C10's amended theorem at `a = "12"`, `b = "13"`,
`extra = "a"` (cores `"12*13a"` and `"12.13a"`). -/
theorem process_numbers_prefix_junk_fails_witness :
    ((['1', '2'] : List Char) ≠ [] ∧
        (∀ c ∈ (['1', '2'] : List Char), c.isDigit = true) ∧
        (['1', '3'] : List Char) ≠ [] ∧
        (∀ c ∈ (['1', '3'] : List Char), c.isDigit = true) ∧
        (['a'] : List Char) ≠ [] ∧
        (∀ c ∈ (['a'] : List Char), pyIsDigit c = false) ∧
        (∀ c ∈ (['a'] : List Char), pyWhitespace c = false) ∧
        (∀ h : (['a'] : List Char) ≠ [],
          (['a'] : List Char).getLast h ∉ punctuation.data)) ∧
      (process_numbers ⟨['1', '2'] ++ '*' :: (['1', '3'] ++ ['a'])⟩ = none ∧
        ((['a'] : List Char).head? ≠ some '.' →
          process_numbers ⟨['1', '2'] ++ '.' :: (['1', '3'] ++ ['a'])⟩ =
            none)) :=
  ⟨⟨by decide, by decide, by decide, by decide, by decide, by decide,
      by decide,
      fun h => by
        rw [show (['a'] : List Char).getLast h = 'a' from rfl]
        decide⟩,
    process_numbers_prefix_junk_fails ['1', '2'] ['1', '3'] ['a']
      (by decide) (by decide) (by decide) (by decide) (by decide) (by decide)
      (by decide)
      (fun h => by
        rw [show (['a'] : List Char).getLast h = 'a' from rfl]
        decide)⟩
